import Mathlib

/-!
Sidebar toggle script (template/sidebars.js)

A shallow embedding of the script and of the part of the DOM it touches.

* A document is the list of its elements in tree order; each element carries
  its id, the token list behind its classList, and the reference of its parent
  element, if it has one. In tree order a parent comes before its children, so
  a parent reference that does not point to an earlier element is read as no
  parent.
* An element reference is the position of the element in that list; the
  script never creates, moves or removes elements, so positions are stable.
* JavaScript values that are either null or an element are Option Nat.
* A member access on null raises a TypeError, so every operation that the
  script performs on a looked-up value returns Except JsError.
* The script registers its listeners without the capture option, and a click
  event bubbles: a click on an element runs the click listeners of that
  element and then those of each of its ancestors, innermost first, each
  element's listeners in registration order.
-/

namespace Sidebars

/-- An element of the document: its id attribute, its class tokens and the reference
of its parent element. -/
structure Node where
  id : String
  classList : List String
  parent : Option Nat
deriving DecidableEq, Repr

/-- The exceptions the modelled operations can raise. -/
inductive JsError where
  | typeError
  | emptyToken
  | invalidCharacter
deriving DecidableEq, Repr

/-- A listener callback. The only callbacks of the script are the arrow
functions that call classList.toggle on a captured variable with a token. -/
inductive Callback where
  | arrowToggle (captured : Option Nat) (token : String)
deriving DecidableEq, Repr

/-- An entry of an event target's listener list. -/
structure Listener where
  target : Nat
  type : String
  callback : Callback
deriving DecidableEq, Repr

/-- The page state: the elements and the listeners registered by the script. -/
structure Page where
  nodes : List Node
  listeners : List Listener
deriving DecidableEq, Repr

/-- The document.getElementById lookup: the first element in tree order with the
given id, or null. -/
def getElementById : List Node → String → Option Nat
  | [], _ => none
  | n :: rest, id => if n.id = id then some 0 else (getElementById rest id).map (· + 1)

/-- JavaScript truthiness of a value that is null or an element. -/
def truthy (v : Option Nat) : Bool := v.isSome

/-- The JavaScript operator && on values that are null or an element. -/
def jsAnd (a b : Option Nat) : Option Nat := if truthy a then b else a

/-- The method addEventListener called on a value that is null or an element. -/
def addEventListener (target : Option Nat) (type : String) (cb : Callback) (page : Page) :
    Except JsError Page :=
  match target with
  | none => .error .typeError
  | some r => .ok { page with listeners := page.listeners ++ [⟨r, type, cb⟩] }

/-- ASCII whitespace as in the DOM standard. -/
def isAsciiWhitespace (c : Char) : Bool :=
  c = '\t' || c = '\n' || c = '\x0c' || c = '\r' || c = ' '

/-- The method toggle of a DOMTokenList, called with one argument. -/
def tokenListToggle (tokens : List String) (token : String) : Except JsError (List String) :=
  if token = "" then .error .emptyToken
  else if token.toList.any isAsciiWhitespace then .error .invalidCharacter
  else if token ∈ tokens then .ok (tokens.filter (fun t => t ≠ token))
  else .ok (tokens ++ [token])

/-- The statement x.classList.toggle(token) where x is null or an element. -/
def classListToggle (x : Option Nat) (token : String) (page : Page) : Except JsError Page :=
  match x with
  | none => .error .typeError
  | some r =>
    match page.nodes[r]? with
    | none => .ok page
    | some n =>
      match tokenListToggle n.classList token with
      | .error e => .error e
      | .ok tokens => .ok { page with nodes := page.nodes.set r { n with classList := tokens } }

/-- Running a callback. -/
def Callback.invoke : Callback → Page → Except JsError Page
  | .arrowToggle captured token, page => classListToggle captured token page

/-- Running a list of listeners in order. -/
def runListeners : List Listener → Page → Except JsError Page
  | [], page => .ok page
  | l :: rest, page =>
    match l.callback.invoke page with
    | .ok page1 => runListeners rest page1
    | .error e => .error e

/-- The parent of an element: the element its parent reference names, which in
tree order stands before it. -/
def parentOf (nodes : List Node) (i : Nat) : Option Nat :=
  match nodes[i]? with
  | none => none
  | some n =>
    match n.parent with
    | none => none
    | some j => if j < i then some j else none

/-- The chain of ancestors of an element, innermost first, followed for at most the
given number of steps. -/
def ancestorsFrom (nodes : List Node) : Nat → Nat → List Nat
  | 0, _ => []
  | fuel + 1, i =>
    match parentOf nodes i with
    | none => []
    | some j => j :: ancestorsFrom nodes fuel j

/-- The ancestors of an element, innermost first. Every step goes to a smaller
reference, so as many steps as the reference itself reach the root. -/
def ancestors (nodes : List Node) (i : Nat) : List Nat :=
  ancestorsFrom nodes i i

/-- The path of an event that targets an element: the element, then its ancestors. -/
def eventPath (nodes : List Node) (target : Nat) : List Nat :=
  target :: ancestors nodes target

/-- Invoking the listeners of the given type registered on one element of the path. -/
def invokeListeners (r : Nat) (type : String) (page : Page) : Except JsError Page :=
  runListeners (page.listeners.filter (fun l => l.target = r ∧ l.type = type)) page

/-- Invoking the listeners of the elements of a path, one element after the other. -/
def invokePath : List Nat → String → Page → Except JsError Page
  | [], _, page => .ok page
  | r :: rest, type, page =>
    match invokeListeners r type page with
    | .ok page1 => invokePath rest type page1
    | .error e => .error e

/-- Dispatching a bubbling event of the given type at an element: the path is fixed
first, then the listeners along it run from the target outwards. -/
def dispatchEvent (target : Nat) (type : String) (page : Page) : Except JsError Page :=
  invokePath (eventPath page.nodes target) type page

/-- The script sidebars.js, evaluated on a document. -/
def script (document : List Node) : Except JsError Page := do
  let left_sidebar := getElementById document "left-sidebar"
  let right_sidebar := getElementById document "right-sidebar"
  let bottom_sidebar := getElementById document "bottom-sidebar"
  let left_sidebar_button := getElementById document "left-sidebar-button"
  let right_sidebar_button := getElementById document "right-sidebar-button"
  let bottom_sidebar_button := getElementById document "bottom-sidebar-button"
  let page : Page := ⟨document, []⟩
  let page ←
    if truthy (jsAnd left_sidebar left_sidebar_button) then
      addEventListener left_sidebar_button "click" (.arrowToggle left_sidebar "open") page
    else pure page
  let page ←
    if truthy (jsAnd right_sidebar right_sidebar_button) then
      addEventListener right_sidebar_button "click" (.arrowToggle right_sidebar "open") page
    else pure page
  let page ←
    if truthy (jsAnd bottom_sidebar bottom_sidebar_button) then
      addEventListener bottom_sidebar_button "click" (.arrowToggle bottom_sidebar "open") page
    else pure page
  return page

/-- The three sidebar and button pairs of the script. -/
inductive Side where
  | left
  | right
  | bottom
deriving DecidableEq, Repr

/-- The id of the sidebar of a pair. -/
def sidebarId : Side → String
  | .left => "left-sidebar"
  | .right => "right-sidebar"
  | .bottom => "bottom-sidebar"

/-- The id of the button of a pair. -/
def buttonId : Side → String
  | .left => "left-sidebar-button"
  | .right => "right-sidebar-button"
  | .bottom => "bottom-sidebar-button"

/-- A user click on an element: a click event that targets it and bubbles. -/
def click (target : Nat) (page : Page) : Except JsError Page :=
  dispatchEvent target "click" page

/-- A sequence of user clicks on elements, given by their references. -/
def clicks : List Nat → Page → Except JsError Page
  | [], page => .ok page
  | r :: rest, page =>
    match click r page with
    | .ok page1 => clicks rest page1
    | .error e => .error e

/-- Loading the document, evaluating the script, then the given clicks. -/
def session (document : List Node) (history : List Nat) : Except JsError Page :=
  match script document with
  | .ok page => clicks history page
  | .error e => .error e

/-- The class tokens of the element at a reference. -/
def classListAt (page : Page) (r : Option Nat) : Option (List String) :=
  match r with
  | none => none
  | some i => page.nodes[i]?.map Node.classList

/-- The class tokens of the sidebar of a pair, as found by id in the document. -/
def sidebarClasses (document : List Node) (page : Page) (s : Side) : Option (List String) :=
  classListAt page (getElementById document (sidebarId s))

/-- The number of listeners of a type registered on an element. -/
def listenerCount (page : Page) (r : Nat) (type : String) : Nat :=
  (page.listeners.filter (fun l => l.target = r ∧ l.type = type)).length

/-! ## The listeners the script registers -/

/-- The listener the block of a pair registers, when it registers one. -/
def block (document : List Node) (s : Side) : List Listener :=
  match getElementById document (sidebarId s), getElementById document (buttonId s) with
  | some sb, some b => [⟨b, "click", .arrowToggle (some sb) "open"⟩]
  | _, _ => []

/-- The listener list after the three blocks of the script. -/
def wiring (document : List Node) : List Listener :=
  block document .left ++ block document .right ++ block document .bottom

/-- The effect of toggling the token open on a token list. -/
def toggleOpen (tokens : List String) : List String :=
  if "open" ∈ tokens then tokens.filter (fun t => t ≠ "open") else tokens ++ ["open"]

/-- Toggling the token open on the element at a reference. -/
def toggleAt (nodes : List Node) (sb : Nat) : List Node :=
  nodes.modify (fun n => { n with classList := toggleOpen n.classList }) sb

/-- What holds of every page the script and later clicks produce from a document:
the listener list is the one the script registered, and the elements keep their
positions, ids and parents. -/
def Inv (document : List Node) (page : Page) : Prop :=
  page.listeners = wiring document ∧
    ∀ i : Nat, (page.nodes[i]?).map Node.id = (document[i]?).map Node.id ∧
      (page.nodes[i]?).map Node.parent = (document[i]?).map Node.parent

/-- The second element list differs from the first at most in the membership of the
token open on elements that are sidebars of the document. -/
def Frame (document : List Node) (nodes nodes1 : List Node) : Prop :=
  nodes1.length = nodes.length ∧
    ∀ (i : Nat) (n : Node), nodes[i]? = some n →
      ∃ n1, nodes1[i]? = some n1 ∧
        (∀ c : String, c ≠ "open" → (c ∈ n1.classList ↔ c ∈ n.classList)) ∧
        ((∀ q : Side, getElementById document (sidebarId q) ≠ some i) → n1 = n)

/-- Whether a click listener is registered on the button of a pair. -/
def isWired (document : List Node) (page : Page) (s : Side) : Bool :=
  match getElementById document (buttonId s) with
  | none => false
  | some b => decide (0 < listenerCount page b "click")

/-- A document with all six elements, none inside another. -/
def fullDocument : List Node :=
  [⟨"left-sidebar", ["panel"], none⟩, ⟨"left-sidebar-button", ["btn"], none⟩,
   ⟨"right-sidebar", ["open", "panel"], none⟩, ⟨"right-sidebar-button", ["btn"], none⟩,
   ⟨"bottom-sidebar", [], none⟩, ⟨"bottom-sidebar-button", [], none⟩]

/-- A document whose left sidebar is open when the script is evaluated. -/
def openLeftDocument : List Node :=
  [⟨"left-sidebar", ["open"], none⟩, ⟨"left-sidebar-button", [], none⟩]

/-- A document with the right button but without the right sidebar. -/
def noRightSidebarDocument : List Node :=
  [⟨"left-sidebar", [], none⟩, ⟨"left-sidebar-button", [], none⟩,
   ⟨"right-sidebar-button", [], none⟩]

/-- A document without the right sidebar whose right button lies inside the left
button. -/
def orphanInsideDocument : List Node :=
  [⟨"left-sidebar", [], none⟩, ⟨"left-sidebar-button", [], none⟩,
   ⟨"right-sidebar-button", [], some 1⟩]

/-- A document with the left and right pairs whose left button lies inside the right
button. -/
def nestedButtonsDocument : List Node :=
  [⟨"left-sidebar", [], none⟩, ⟨"right-sidebar", [], none⟩,
   ⟨"right-sidebar-button", [], none⟩, ⟨"left-sidebar-button", [], some 2⟩]

/-- A document whose left and right buttons lie side by side inside a toolbar. -/
def wrappedDocument : List Node :=
  [⟨"toolbar", [], none⟩, ⟨"left-sidebar-button", ["btn"], some 0⟩,
   ⟨"left-sidebar", ["panel"], none⟩, ⟨"right-sidebar", ["open"], none⟩,
   ⟨"right-sidebar-button", [], some 0⟩]

theorem getElementById_some {doc : List Node} {a : String} {i : Nat}
    (h : getElementById doc a = some i) : ∃ n, doc[i]? = some n ∧ n.id = a := by
  induction doc generalizing i with
  | nil => simp [getElementById] at h
  | cons n rest ih =>
    unfold getElementById at h
    split at h
    · rename_i hid
      cases h
      exact ⟨n, by simp, hid⟩
    · cases hr : getElementById rest a with
      | none => simp [hr] at h
      | some j =>
        simp [hr] at h
        subst h
        obtain ⟨m, hm, hid⟩ := ih hr
        exact ⟨m, by simpa using hm, hid⟩

theorem getElementById_inj {doc : List Node} {a b : String} {i : Nat}
    (ha : getElementById doc a = some i) (hb : getElementById doc b = some i) : a = b := by
  obtain ⟨n, hn, hna⟩ := getElementById_some ha
  obtain ⟨m, hm, hmb⟩ := getElementById_some hb
  rw [hn] at hm
  cases hm
  rw [← hna, ← hmb]

theorem buttonId_inj {p q : Side} (h : buttonId p = buttonId q) : p = q := by
  cases p <;> cases q <;> first | rfl | (exact absurd h (by decide))

theorem sidebarId_inj {p q : Side} (h : sidebarId p = sidebarId q) : p = q := by
  cases p <;> cases q <;> first | rfl | (exact absurd h (by decide))

theorem sidebarId_ne_buttonId (p q : Side) : sidebarId p ≠ buttonId q := by
  cases p <;> cases q <;> decide

theorem script_eq (doc : List Node) : script doc = .ok ⟨doc, wiring doc⟩ := by
  unfold script wiring block
  simp only [sidebarId, buttonId]
  cases getElementById doc "left-sidebar" <;> cases getElementById doc "left-sidebar-button" <;>
  cases getElementById doc "right-sidebar" <;> cases getElementById doc "right-sidebar-button" <;>
  cases getElementById doc "bottom-sidebar" <;> cases getElementById doc "bottom-sidebar-button" <;>
  rfl

theorem filter_block_self {doc : List Node} {s : Side} {b : Nat}
    (hb : getElementById doc (buttonId s) = some b) :
    (block doc s).filter (fun l => l.target = b ∧ l.type = "click") = block doc s := by
  unfold block
  rw [hb]
  cases getElementById doc (sidebarId s) <;> simp

theorem filter_block_other {doc : List Node} {s : Side} {r : Nat} (t : String)
    (hb : getElementById doc (buttonId s) ≠ some r) :
    (block doc s).filter (fun l => l.target = r ∧ l.type = t) = [] := by
  unfold block
  cases hs : getElementById doc (sidebarId s) <;> cases hq : getElementById doc (buttonId s) <;>
    simp
  rename_i sb b
  intro hbr
  exact absurd (by rw [hq, hbr]) hb

theorem length_block_le (doc : List Node) (s : Side) : (block doc s).length ≤ 1 := by
  unfold block
  cases getElementById doc (sidebarId s) <;> cases getElementById doc (buttonId s) <;> simp

theorem button_ne_of_ne {doc : List Node} {p q : Side} {b : Nat} (hpq : p ≠ q)
    (hb : getElementById doc (buttonId p) = some b) :
    getElementById doc (buttonId q) ≠ some b := by
  intro hq
  exact hpq (buttonId_inj (getElementById_inj hb hq))

theorem sidebar_ne_of_ne {doc : List Node} {p q : Side} {sp sq : Nat} (hpq : p ≠ q)
    (hp : getElementById doc (sidebarId p) = some sp)
    (hq : getElementById doc (sidebarId q) = some sq) : sp ≠ sq := by
  intro heq
  subst heq
  exact hpq (sidebarId_inj (getElementById_inj hp hq))

theorem filter_block_ne (doc : List Node) (p q : Side) (t : String) {b : Nat} (hpq : p ≠ q)
    (hb : getElementById doc (buttonId p) = some b) :
    (block doc q).filter (fun l => l.target = b ∧ l.type = t) = [] :=
  filter_block_other t (button_ne_of_ne hpq hb)

theorem filter_wiring_button {doc : List Node} {s : Side} {b : Nat}
    (hb : getElementById doc (buttonId s) = some b) :
    (wiring doc).filter (fun l => l.target = b ∧ l.type = "click") = block doc s := by
  unfold wiring
  rw [List.filter_append, List.filter_append]
  cases s
  · rw [filter_block_self hb, filter_block_ne doc .left .right _ (by decide) hb,
      filter_block_ne doc .left .bottom _ (by decide) hb]
    simp
  · rw [filter_block_self hb, filter_block_ne doc .right .left _ (by decide) hb,
      filter_block_ne doc .right .bottom _ (by decide) hb]
    simp
  · rw [filter_block_self hb, filter_block_ne doc .bottom .left _ (by decide) hb,
      filter_block_ne doc .bottom .right _ (by decide) hb]
    simp

theorem filter_wiring_other {doc : List Node} {r : Nat}
    (h : ∀ s, getElementById doc (buttonId s) ≠ some r) :
    (wiring doc).filter (fun l => l.target = r ∧ l.type = "click") = [] := by
  unfold wiring
  rw [List.filter_append, List.filter_append, filter_block_other _ (h _),
    filter_block_other _ (h _), filter_block_other _ (h _)]
  rfl

theorem listenerCount_wiring_le (doc : List Node) (r : Nat) (t : String) :
    ((wiring doc).filter (fun l => l.target = r ∧ l.type = t)).length ≤ 1 := by
  unfold wiring
  rw [List.filter_append, List.filter_append]
  by_cases h : ∃ s, getElementById doc (buttonId s) = some r
  · obtain ⟨s, hb⟩ := h
    have hle := Nat.le_trans (List.length_filter_le (fun l => decide (l.target = r ∧ l.type = t))
      (block doc s)) (length_block_le doc s)
    cases s
    · rw [filter_block_ne doc .left .right t (by decide) hb,
        filter_block_ne doc .left .bottom t (by decide) hb]
      simpa using hle
    · rw [filter_block_ne doc .right .left t (by decide) hb,
        filter_block_ne doc .right .bottom t (by decide) hb]
      simpa using hle
    · rw [filter_block_ne doc .bottom .left t (by decide) hb,
        filter_block_ne doc .bottom .right t (by decide) hb]
      simpa using hle
  · rw [filter_block_other t (fun hs => h ⟨Side.left, hs⟩),
      filter_block_other t (fun hs => h ⟨Side.right, hs⟩),
      filter_block_other t (fun hs => h ⟨Side.bottom, hs⟩)]
    simp

/-- After the script, a pair is wired exactly when both of its lookups succeeded. -/
theorem isWired_wiring (doc : List Node) (s : Side) :
    isWired doc ⟨doc, wiring doc⟩ s =
      ((getElementById doc (sidebarId s)).isSome && (getElementById doc (buttonId s)).isSome) := by
  unfold isWired listenerCount
  cases hb : getElementById doc (buttonId s) with
  | none => simp
  | some b =>
    simp only [filter_wiring_button hb]
    unfold block
    rw [hb]
    cases getElementById doc (sidebarId s) <;> simp

theorem tokenListToggle_open (tokens : List String) :
    tokenListToggle tokens "open" = .ok (toggleOpen tokens) := by
  unfold tokenListToggle toggleOpen
  rw [if_neg (by decide), if_neg (by decide)]
  split <;> rfl

/-- The page after toggling open on the element at a reference. -/
theorem classListToggle_open (page : Page) (sb : Nat) :
    classListToggle (some sb) "open" page =
      .ok ⟨toggleAt page.nodes sb, page.listeners⟩ := by
  unfold classListToggle toggleAt
  simp only [tokenListToggle_open]
  cases h : page.nodes[sb]? with
  | none =>
    simp only
    congr 1
    rw [List.modify_eq_set_get?, List.get?_eq_getElem?, h]
    rfl
  | some n =>
    simp only
    congr 2
    rw [List.modify_eq_set_get?, List.get?_eq_getElem?, h]
    rfl

theorem getElem?_toggleAt_self {nodes : List Node} {sb : Nat} {n : Node}
    (h : nodes[sb]? = some n) :
    (toggleAt nodes sb)[sb]? = some { n with classList := toggleOpen n.classList } := by
  unfold toggleAt
  rw [List.getElem?_modify_eq, h]
  rfl

theorem getElem?_toggleAt_ne {nodes : List Node} {sb i : Nat} (h : sb ≠ i) :
    (toggleAt nodes sb)[i]? = nodes[i]? := by
  unfold toggleAt
  rw [List.getElem?_modify_ne _ _ h]

theorem getElem?_toggleAt_id (nodes : List Node) (sb i : Nat) :
    (toggleAt nodes sb)[i]?.map Node.id = nodes[i]?.map Node.id := by
  unfold toggleAt
  rw [List.getElem?_modify]
  cases nodes[i]? with
  | none => rfl
  | some n =>
    by_cases hi : sb = i <;> simp [hi]

theorem getElem?_toggleAt_parent (nodes : List Node) (sb i : Nat) :
    (toggleAt nodes sb)[i]?.map Node.parent = nodes[i]?.map Node.parent := by
  unfold toggleAt
  rw [List.getElem?_modify]
  cases nodes[i]? with
  | none => rfl
  | some n =>
    by_cases hi : sb = i <;> simp [hi]

theorem length_toggleAt (nodes : List Node) (sb : Nat) :
    (toggleAt nodes sb).length = nodes.length := by
  unfold toggleAt
  simp

theorem mem_toggleOpen_open (cs : List String) : "open" ∈ toggleOpen cs ↔ "open" ∉ cs := by
  unfold toggleOpen
  split
  · rename_i h
    simp [h]
  · rename_i h
    simp [h]

theorem mem_toggleOpen_other {c : String} (hc : c ≠ "open") (cs : List String) :
    c ∈ toggleOpen cs ↔ c ∈ cs := by
  unfold toggleOpen
  split
  · simp [hc]
  · simp [hc]

theorem mem_toggleOpen_twice (c : String) (cs : List String) :
    c ∈ toggleOpen (toggleOpen cs) ↔ c ∈ cs := by
  by_cases hc : c = "open"
  · subst hc
    rw [mem_toggleOpen_open, mem_toggleOpen_open]
    exact not_not
  · rw [mem_toggleOpen_other hc, mem_toggleOpen_other hc]

/-! ## The event path -/

theorem parentOf_lt {nodes : List Node} {i j : Nat} (h : parentOf nodes i = some j) : j < i := by
  unfold parentOf at h
  split at h
  · cases h
  · split at h
    · cases h
    · split at h
      · rename_i hlt
        cases h
        exact hlt
      · cases h

theorem ancestorsFrom_lt (nodes : List Node) (fuel : Nat) :
    ∀ (i a : Nat), a ∈ ancestorsFrom nodes fuel i → a < i := by
  induction fuel with
  | zero => intro i a ha; simp [ancestorsFrom] at ha
  | succ k ih =>
    intro i a ha
    unfold ancestorsFrom at ha
    cases hp : parentOf nodes i with
    | none => simp [hp] at ha
    | some j =>
      simp only [hp, List.mem_cons] at ha
      have hj := parentOf_lt hp
      rcases ha with ha | ha
      · omega
      · have := ih j a ha
        omega

theorem ancestors_lt {nodes : List Node} {i a : Nat} (h : a ∈ ancestors nodes i) : a < i :=
  ancestorsFrom_lt nodes i i a h

theorem parentOf_congr {nodes doc : List Node}
    (h : ∀ i : Nat, (nodes[i]?).map Node.parent = (doc[i]?).map Node.parent) (i : Nat) :
    parentOf nodes i = parentOf doc i := by
  have hi := h i
  unfold parentOf
  cases hn : nodes[i]? with
  | none =>
    cases hd : doc[i]? with
    | none => rfl
    | some m => simp [hn, hd] at hi
  | some n =>
    cases hd : doc[i]? with
    | none => simp [hn, hd] at hi
    | some m =>
      simp [hn, hd] at hi
      simp only [hi]

theorem ancestorsFrom_congr {nodes doc : List Node}
    (h : ∀ i : Nat, (nodes[i]?).map Node.parent = (doc[i]?).map Node.parent) (fuel : Nat) :
    ∀ i : Nat, ancestorsFrom nodes fuel i = ancestorsFrom doc fuel i := by
  induction fuel with
  | zero => intro i; rfl
  | succ k ih =>
    intro i
    unfold ancestorsFrom
    rw [parentOf_congr h i]
    cases parentOf doc i with
    | none => rfl
    | some j => simp only [ih j]

/-! ## Pages reached from a document -/

theorem inv_script (doc : List Node) : Inv doc ⟨doc, wiring doc⟩ :=
  ⟨rfl, fun _ => ⟨rfl, rfl⟩⟩

theorem inv_node {doc : List Node} {page : Page} (hinv : Inv doc page) {a : String} {i : Nat}
    (h : getElementById doc a = some i) : ∃ n, page.nodes[i]? = some n ∧ n.id = a := by
  obtain ⟨m, hm, hid⟩ := getElementById_some h
  have h2 := (hinv.2 i).1
  rw [hm] at h2
  cases hn : page.nodes[i]? with
  | none => simp [hn] at h2
  | some n =>
    simp [hn] at h2
    exact ⟨n, rfl, by rw [h2, hid]⟩

theorem ancestors_inv {doc : List Node} {page : Page} (hinv : Inv doc page) (r : Nat) :
    ancestors page.nodes r = ancestors doc r :=
  ancestorsFrom_congr (fun i => (hinv.2 i).2) r r

theorem inv_toggleAt {doc : List Node} {page : Page} (hinv : Inv doc page) (sb : Nat) :
    Inv doc ⟨toggleAt page.nodes sb, page.listeners⟩ :=
  ⟨hinv.1, fun i =>
    ⟨by rw [← (hinv.2 i).1]; exact getElem?_toggleAt_id page.nodes sb i,
     by rw [← (hinv.2 i).2]; exact getElem?_toggleAt_parent page.nodes sb i⟩⟩

theorem invoke_wired {doc : List Node} {page : Page} (hinv : Inv doc page) {s : Side}
    {sb b : Nat} (hs : getElementById doc (sidebarId s) = some sb)
    (hb : getElementById doc (buttonId s) = some b) :
    invokeListeners b "click" page = .ok ⟨toggleAt page.nodes sb, page.listeners⟩ := by
  unfold invokeListeners
  rw [hinv.1, filter_wiring_button hb]
  unfold block
  rw [hs, hb]
  simp only [runListeners, Callback.invoke, classListToggle_open]
  rw [hinv.1]

theorem invoke_unwired {doc : List Node} {page : Page} (hinv : Inv doc page) {s : Side}
    {b : Nat} (hs : getElementById doc (sidebarId s) = none)
    (hb : getElementById doc (buttonId s) = some b) :
    invokeListeners b "click" page = .ok page := by
  unfold invokeListeners
  rw [hinv.1, filter_wiring_button hb]
  unfold block
  rw [hs]
  rfl

theorem invoke_other {doc : List Node} {page : Page} (hinv : Inv doc page) {r : Nat}
    (h : ∀ s, getElementById doc (buttonId s) ≠ some r) :
    invokeListeners r "click" page = .ok page := by
  unfold invokeListeners
  rw [hinv.1, filter_wiring_other h]
  rfl

/-- The listeners of one element either change nothing, or the element is the button
of a pair whose sidebar exists and open is toggled on that sidebar. -/
theorem invoke_cases {doc : List Node} {page : Page} (hinv : Inv doc page) (r : Nat) :
    invokeListeners r "click" page = .ok page ∨
      ∃ s sb, getElementById doc (buttonId s) = some r ∧
        getElementById doc (sidebarId s) = some sb ∧
        invokeListeners r "click" page = .ok ⟨toggleAt page.nodes sb, page.listeners⟩ := by
  by_cases h : ∃ s, getElementById doc (buttonId s) = some r
  · obtain ⟨s, hb⟩ := h
    cases hs : getElementById doc (sidebarId s) with
    | none => exact Or.inl (invoke_unwired hinv hs hb)
    | some sb => exact Or.inr ⟨s, sb, hb, hs, invoke_wired hinv hs hb⟩
  · exact Or.inl (invoke_other hinv (fun s hs => h ⟨s, hs⟩))

theorem frame_refl (doc nodes : List Node) : Frame doc nodes nodes :=
  ⟨rfl, fun _ n hn => ⟨n, hn, fun _ _ => Iff.rfl, fun _ => rfl⟩⟩

theorem frame_trans {doc a b c : List Node} (hab : Frame doc a b) (hbc : Frame doc b c) :
    Frame doc a c := by
  refine ⟨hbc.1.trans hab.1, fun i n hn => ?_⟩
  obtain ⟨n1, hn1, hc1, he1⟩ := hab.2 i n hn
  obtain ⟨n2, hn2, hc2, he2⟩ := hbc.2 i n1 hn1
  exact ⟨n2, hn2, fun c hc => (hc2 c hc).trans (hc1 c hc),
    fun hq => (he2 hq).trans (he1 hq)⟩

theorem frame_toggleAt {doc : List Node} {s : Side} {sb : Nat}
    (hs : getElementById doc (sidebarId s) = some sb) (nodes : List Node) :
    Frame doc nodes (toggleAt nodes sb) := by
  refine ⟨length_toggleAt nodes sb, fun i n hn => ?_⟩
  by_cases hi : sb = i
  · subst hi
    exact ⟨_, getElem?_toggleAt_self hn, fun c hc => mem_toggleOpen_other hc _,
      fun hq => absurd hs (hq s)⟩
  · exact ⟨n, by rw [getElem?_toggleAt_ne hi, hn], fun _ _ => Iff.rfl, fun _ => rfl⟩

/-- Running the click listeners along a path from a reached page: it ends normally in
a reached page; only the token open on sidebars can have changed; the sidebar of a
pair whose button is not on the path is untouched; and with no wired button on the
path the page is the same. -/
theorem invokePath_spec {doc : List Node} (path : List Nat) :
    ∀ {page : Page}, Inv doc page →
      ∃ page1, invokePath path "click" page = .ok page1 ∧ Inv doc page1 ∧
        Frame doc page.nodes page1.nodes ∧
        (∀ (q : Side) (sq : Nat), getElementById doc (sidebarId q) = some sq →
          (∀ r ∈ path, getElementById doc (buttonId q) ≠ some r) →
          page1.nodes[sq]? = page.nodes[sq]?) ∧
        ((∀ r ∈ path, ∀ q : Side, getElementById doc (buttonId q) = some r →
          getElementById doc (sidebarId q) = none) → page1 = page) := by
  induction path with
  | nil =>
    intro page hinv
    exact ⟨page, rfl, hinv, frame_refl doc _, fun _ _ _ _ => rfl, fun _ => rfl⟩
  | cons r rest ih =>
    intro page hinv
    rcases invoke_cases hinv r with h | ⟨s, sb, hb, hs, h⟩
    · obtain ⟨page1, hrun, hinv1, hfr, hown, hsame⟩ := ih hinv
      refine ⟨page1, by simp only [invokePath, h, hrun], hinv1, hfr, ?_, ?_⟩
      · intro q sq hq hpath
        exact hown q sq hq (fun x hx => hpath x (List.mem_cons_of_mem r hx))
      · intro hno
        exact hsame (fun x hx => hno x (List.mem_cons_of_mem r hx))
    · obtain ⟨page1, hrun, hinv1, hfr, hown, _⟩ := ih (inv_toggleAt hinv sb)
      refine ⟨page1, by simp only [invokePath, h, hrun], hinv1,
        frame_trans (frame_toggleAt hs page.nodes) hfr, ?_, ?_⟩
      · intro q sq hq hpath
        have hqs : s ≠ q := by
          intro heq
          subst heq
          exact hpath r (List.mem_cons_self r rest) hb
        rw [hown q sq hq (fun x hx => hpath x (List.mem_cons_of_mem r hx))]
        exact getElem?_toggleAt_ne (sidebar_ne_of_ne hqs hs hq)
      · intro hno
        have := hno r (List.mem_cons_self r rest) s hb
        rw [hs] at this
        cases this

/-- A click on any element of a reached page, in terms of the event path in the
document. -/
theorem click_spec {doc : List Node} {page : Page} (hinv : Inv doc page) (r : Nat) :
    ∃ page1, click r page = .ok page1 ∧ Inv doc page1 ∧
      Frame doc page.nodes page1.nodes ∧
      (∀ (q : Side) (sq : Nat), getElementById doc (sidebarId q) = some sq →
        (∀ a ∈ eventPath doc r, getElementById doc (buttonId q) ≠ some a) →
        page1.nodes[sq]? = page.nodes[sq]?) ∧
      ((∀ a ∈ eventPath doc r, ∀ q : Side, getElementById doc (buttonId q) = some a →
        getElementById doc (sidebarId q) = none) → page1 = page) := by
  have hpath : eventPath page.nodes r = eventPath doc r := by
    unfold eventPath
    rw [ancestors_inv hinv]
  unfold click dispatchEvent
  rw [hpath]
  exact invokePath_spec (eventPath doc r) hinv

theorem inv_clicks {doc : List Node} (h : List Nat) :
    ∀ {page : Page}, Inv doc page → ∃ page1, clicks h page = .ok page1 ∧ Inv doc page1 := by
  induction h with
  | nil => intro page hinv; exact ⟨page, rfl, hinv⟩
  | cons r rest ih =>
    intro page hinv
    obtain ⟨p1, hc, hinv1, _⟩ := click_spec hinv r
    obtain ⟨p2, hc2, hinv2⟩ := ih hinv1
    refine ⟨p2, ?_, hinv2⟩
    simp only [clicks, hc, hc2]

theorem clicks_append (h1 h2 : List Nat) (page : Page) :
    clicks (h1 ++ h2) page =
      match clicks h1 page with
      | .ok page1 => clicks h2 page1
      | .error e => .error e := by
  induction h1 generalizing page with
  | nil => rfl
  | cons r rest ih =>
    simp only [List.cons_append, clicks]
    cases click r page with
    | error e => rfl
    | ok p => exact ih p

/-- Every session succeeds, in a page that satisfies the invariant. -/
theorem session_inv (doc : List Node) (h : List Nat) :
    ∃ page, session doc h = .ok page ∧ Inv doc page := by
  unfold session
  rw [script_eq]
  exact inv_clicks h (inv_script doc)

theorem session_append {doc : List Node} {h : List Nat} {page : Page}
    (hp : session doc h = .ok page) (h2 : List Nat) :
    session doc (h ++ h2) = clicks h2 page := by
  unfold session at hp ⊢
  rw [script_eq] at hp ⊢
  simp only at hp ⊢
  rw [clicks_append, hp]

theorem session_snoc {doc : List Node} {h : List Nat} {page : Page}
    (hp : session doc h = .ok page) (r : Nat) :
    session doc (h ++ [r]) = click r page := by
  rw [session_append hp]
  simp only [clicks]
  cases click r page <;> rfl

theorem sidebarClasses_eq {doc : List Node} {page : Page} {s : Side} {sb : Nat} {n : Node}
    (hs : getElementById doc (sidebarId s) = some sb) (hn : page.nodes[sb]? = some n) :
    sidebarClasses doc page s = some n.classList := by
  unfold sidebarClasses classListAt
  rw [hs]
  simp only [hn, Option.map_some']

theorem sidebarClasses_congr {doc : List Node} {page page1 : Page} {q : Side}
    (h : ∀ sq : Nat, getElementById doc (sidebarId q) = some sq →
      page1.nodes[sq]? = page.nodes[sq]?) :
    sidebarClasses doc page1 q = sidebarClasses doc page q := by
  unfold sidebarClasses classListAt
  cases hq : getElementById doc (sidebarId q) with
  | none => rfl
  | some sq => simp only [h sq hq]

/-- A click on the button of a wired pair from a reached page: the click ends normally
in a reached page where the sidebar of the pair has open toggled once; whatever the
listeners of enclosing buttons do, they do it to other sidebars. -/
theorem click_wired {doc : List Node} {page : Page} (hinv : Inv doc page) {s : Side}
    {sb b : Nat} {n : Node} (hs : getElementById doc (sidebarId s) = some sb)
    (hb : getElementById doc (buttonId s) = some b) (hn : page.nodes[sb]? = some n) :
    ∃ page1, click b page = .ok page1 ∧ Inv doc page1 ∧
      page1.nodes[sb]? = some { n with classList := toggleOpen n.classList } ∧
      Frame doc page.nodes page1.nodes := by
  obtain ⟨page1, hrun, hinv1, hfr, hown, _⟩ :=
    invokePath_spec (ancestors page.nodes b) (inv_toggleAt hinv sb)
  have hnot : ∀ r ∈ ancestors page.nodes b, getElementById doc (buttonId s) ≠ some r := by
    intro r hr heq
    have hlt := ancestors_lt hr
    rw [hb] at heq
    cases heq
    omega
  refine ⟨page1, ?_, hinv1, ?_, frame_trans (frame_toggleAt hs page.nodes) hfr⟩
  · unfold click dispatchEvent eventPath
    simp only [invokePath, invoke_wired hinv hs hb]
    exact hrun
  · rw [hown s sb hs hnot]
    exact getElem?_toggleAt_self hn

/-- One click on the button of a wired pair, after any history. -/
theorem wired_step {doc : List Node} {s : Side} {sb b : Nat} (h : List Nat)
    (hs : getElementById doc (sidebarId s) = some sb)
    (hb : getElementById doc (buttonId s) = some b) :
    ∃ before n after, session doc h = .ok before ∧ Inv doc before ∧
      before.nodes[sb]? = some n ∧ session doc (h ++ [b]) = .ok after ∧ Inv doc after ∧
      after.nodes[sb]? = some { n with classList := toggleOpen n.classList } ∧
      Frame doc before.nodes after.nodes := by
  obtain ⟨before, hbefore, hinv⟩ := session_inv doc h
  obtain ⟨n, hn, _⟩ := inv_node hinv hs
  obtain ⟨after, hclick, hinv1, hnode, hfr⟩ := click_wired hinv hs hb hn
  exact ⟨before, n, after, hbefore, hinv, hn, by rw [session_snoc hbefore, hclick], hinv1,
    hnode, hfr⟩

/-- Clicks whose event paths avoid the button of a pair leave the sidebar of that
pair as it is. -/
theorem clicks_not_own {doc : List Node} {q : Side} (h2 : List Nat)
    (hr : ∀ r ∈ h2, ∀ a ∈ eventPath doc r, getElementById doc (buttonId q) ≠ some a) :
    ∀ {page : Page}, Inv doc page → ∃ page1, clicks h2 page = .ok page1 ∧
      sidebarClasses doc page1 q = sidebarClasses doc page q := by
  induction h2 with
  | nil => intro page _; exact ⟨page, rfl, rfl⟩
  | cons r rest ih =>
    intro page hinv
    obtain ⟨p1, hc, hinv1, _, hown, _⟩ := click_spec hinv r
    obtain ⟨p2, hc2, hcl2⟩ := ih (fun x hx => hr x (List.mem_cons_of_mem r hx)) hinv1
    refine ⟨p2, by simp only [clicks, hc, hc2], ?_⟩
    rw [hcl2]
    exact sidebarClasses_congr (fun sq hq => hown q sq hq (hr r (List.mem_cons_self r rest)))

/-- After any history and then n clicks on the button of a wired pair, the sidebar has
open exactly when its membership before the n clicks has been flipped n times. -/
theorem replicate_step {doc : List Node} {s : Side} {sb b : Nat} (h : List Nat)
    (hs : getElementById doc (sidebarId s) = some sb)
    (hb : getElementById doc (buttonId s) = some b) {before : Page} {n0 : Node}
    (hbefore : session doc h = .ok before) (hn0 : before.nodes[sb]? = some n0) (n : Nat) :
    ∃ after m, session doc (h ++ List.replicate n b) = .ok after ∧
      after.nodes[sb]? = some m ∧
      (n % 2 = 0 → ("open" ∈ m.classList ↔ "open" ∈ n0.classList)) ∧
      (n % 2 = 1 → ("open" ∈ m.classList ↔ "open" ∉ n0.classList)) := by
  induction n with
  | zero =>
    refine ⟨before, n0, by simpa using hbefore, hn0, fun _ => Iff.rfl, fun hodd => ?_⟩
    omega
  | succ k ih =>
    obtain ⟨mid, m, hmid, hm, heven, hodd⟩ := ih
    obtain ⟨mid1, m1, after, hmid1, _, hm1, hafter, _, hnode, _⟩ :=
      wired_step (h ++ List.replicate k b) hs hb
    rw [hmid] at hmid1
    cases hmid1
    rw [hm] at hm1
    cases hm1
    rw [List.append_assoc, ← List.replicate_succ'] at hafter
    refine ⟨after, _, hafter, hnode, ?_, ?_⟩
    · intro hk
      have hk1 : k % 2 = 1 := by omega
      simp only [mem_toggleOpen_open]
      rw [hodd hk1]
      exact not_not
    · intro hk
      have hk0 : k % 2 = 0 := by omega
      simp only [mem_toggleOpen_open]
      rw [heven hk0]

theorem frame_getElem?_eq {doc a b : List Node} (hfr : Frame doc a b) {i : Nat}
    (hi : ∀ q : Side, getElementById doc (sidebarId q) ≠ some i) : b[i]? = a[i]? := by
  cases ha : a[i]? with
  | none =>
    rw [List.getElem?_eq_none_iff] at ha ⊢
    rw [hfr.1]
    exact ha
  | some n =>
    obtain ⟨n1, hn1, _, heq⟩ := hfr.2 i n ha
    rw [hn1, heq hi]

theorem inv_ids {doc : List Node} {page page1 : Page} (h : Inv doc page) (h1 : Inv doc page1) :
    page1.nodes.map Node.id = page.nodes.map Node.id := by
  apply List.ext_getElem?
  intro i
  simp only [List.getElem?_map]
  rw [(h1.2 i).1, (h.2 i).1]

/-! ## The claims -/

/-- C1: for each pair whose sidebar and button both exist when the script runs, one
click on the button (after any earlier clicks) flips the membership of the class
open on the sidebar of that pair: absent before means present after, and present
before means absent after. -/
theorem click_flips_open (doc : List Node) (s : Side) (sb b : Nat) (h : List Nat)
    (hs : getElementById doc (sidebarId s) = some sb)
    (hb : getElementById doc (buttonId s) = some b) :
    ∃ before after cs cs1, session doc h = .ok before ∧ session doc (h ++ [b]) = .ok after ∧
      sidebarClasses doc before s = some cs ∧ sidebarClasses doc after s = some cs1 ∧
      ("open" ∉ cs → "open" ∈ cs1) ∧ ("open" ∈ cs → "open" ∉ cs1) := by
  obtain ⟨before, n, after, hbefore, _, hn, hafter, _, hnode, _⟩ := wired_step h hs hb
  refine ⟨before, after, n.classList, toggleOpen n.classList, hbefore, hafter,
    sidebarClasses_eq hs hn, sidebarClasses_eq hs hnode, ?_, ?_⟩
  · intro hno
    exact (mem_toggleOpen_open _).2 hno
  · intro hyes hmem
    exact (mem_toggleOpen_open _).1 hmem hyes

theorem click_flips_open_witness :
    getElementById fullDocument (sidebarId .left) = some 0 ∧
    getElementById fullDocument (buttonId .left) = some 1 ∧
    ∃ before after cs cs1, session fullDocument [] = .ok before ∧
      session fullDocument ([] ++ [1]) = .ok after ∧
      sidebarClasses fullDocument before .left = some cs ∧
      sidebarClasses fullDocument after .left = some cs1 ∧
      ("open" ∉ cs → "open" ∈ cs1) ∧ ("open" ∈ cs → "open" ∉ cs1) :=
  ⟨by decide, by decide, click_flips_open fullDocument .left 0 1 [] (by decide) (by decide)⟩

/-- C2: the script ends normally, and afterwards a click listener is registered on the
button of a pair exactly when the sidebar and the button of that same pair were both
found; the right-hand side mentions no element of the other two pairs. -/
theorem wired_iff_both_exist (doc : List Node) (s : Side) :
    ∃ page, script doc = .ok page ∧
      isWired doc page s =
        ((getElementById doc (sidebarId s)).isSome && (getElementById doc (buttonId s)).isSome) := by
  exact ⟨⟨doc, wiring doc⟩, script_eq doc, isWired_wiring doc s⟩

/-- C3, as stated, fails: with the right sidebar missing and the right button inside
the wired left button, a click on the right button bubbles to the left button and
toggles open on the left sidebar. -/
theorem missing_pair_click_changes_sidebar :
    ¬ (∀ (doc : List Node) (s : Side),
        (getElementById doc (sidebarId s) = none ∨ getElementById doc (buttonId s) = none) →
        ∀ (h : List Nat) (b : Nat), getElementById doc (buttonId s) = some b →
          ∃ before after, session doc h = .ok before ∧ session doc (h ++ [b]) = .ok after ∧
            ∀ q : Side, sidebarClasses doc after q = sidebarClasses doc before q) := by
  intro hall
  obtain ⟨before, after, hbefore, hafter, hsame⟩ :=
    hall orphanInsideDocument .right (Or.inl (by decide)) [] 2 (by decide)
  have hrun0 : session orphanInsideDocument [] =
      .ok ⟨orphanInsideDocument, wiring orphanInsideDocument⟩ := by rfl
  have hrun1 : session orphanInsideDocument ([] ++ [2]) =
      .ok ⟨[⟨"left-sidebar", ["open"], none⟩, ⟨"left-sidebar-button", [], none⟩,
        ⟨"right-sidebar-button", [], some 1⟩], wiring orphanInsideDocument⟩ := by rfl
  rw [hrun0] at hbefore
  rw [hrun1] at hafter
  cases hbefore
  cases hafter
  exact absurd (hsame .left) (by decide)

/-- C3, amended: when the sidebar or the button of a pair is missing, the script still
ends normally without wiring the pair, and a later click on the button of that
pair, when the button exists, ends normally; it leaves unchanged the class list of
every sidebar whose own button does not enclose the clicked button, and it leaves
the whole page unchanged when no enclosing element is the button of a pair with a
sidebar. -/
theorem missing_pair_click (doc : List Node) (s : Side)
    (hmiss : getElementById doc (sidebarId s) = none ∨ getElementById doc (buttonId s) = none) :
    (∃ page, script doc = .ok page ∧ isWired doc page s = false) ∧
      ∀ (h : List Nat) (b : Nat), getElementById doc (buttonId s) = some b →
        ∃ before after, session doc h = .ok before ∧ session doc (h ++ [b]) = .ok after ∧
          (∀ q : Side, (∀ a ∈ ancestors doc b, getElementById doc (buttonId q) ≠ some a) →
            sidebarClasses doc after q = sidebarClasses doc before q) ∧
          ((∀ a ∈ ancestors doc b, ∀ q : Side, getElementById doc (buttonId q) = some a →
            getElementById doc (sidebarId q) = none) → after = before) := by
  constructor
  · refine ⟨⟨doc, wiring doc⟩, script_eq doc, ?_⟩
    rw [isWired_wiring]
    rcases hmiss with h1 | h1 <;> simp [h1]
  · intro h b hb
    have hs : getElementById doc (sidebarId s) = none := by
      rcases hmiss with h1 | h1
      · exact h1
      · rw [hb] at h1
        cases h1
    obtain ⟨before, hbefore, hinv⟩ := session_inv doc h
    obtain ⟨after, hclick, _, _, hown, hsame⟩ := click_spec hinv b
    refine ⟨before, after, hbefore, by rw [session_snoc hbefore, hclick], ?_, ?_⟩
    · intro q hq
      apply sidebarClasses_congr
      intro sq hsq
      apply hown q sq hsq
      intro a ha
      unfold eventPath at ha
      rcases List.mem_cons.1 ha with ha | ha
      · subst ha
        intro hqb
        have hqs : s = q := buttonId_inj (getElementById_inj hb hqb)
        subst hqs
        rw [hs] at hsq
        cases hsq
      · exact hq a ha
    · intro hno
      apply hsame
      intro a ha q hqa
      unfold eventPath at ha
      rcases List.mem_cons.1 ha with ha | ha
      · subst ha
        have hqs : s = q := buttonId_inj (getElementById_inj hb hqa)
        subst hqs
        exact hs
      · exact hno a ha q hqa

theorem missing_pair_click_witness :
    (getElementById orphanInsideDocument (sidebarId .right) = none ∨
      getElementById orphanInsideDocument (buttonId .right) = none) ∧
    (∃ page, script orphanInsideDocument = .ok page ∧
      isWired orphanInsideDocument page .right = false) ∧
      ∀ (h : List Nat) (b : Nat),
        getElementById orphanInsideDocument (buttonId .right) = some b →
        ∃ before after, session orphanInsideDocument h = .ok before ∧
          session orphanInsideDocument (h ++ [b]) = .ok after ∧
          (∀ q : Side, (∀ a ∈ ancestors orphanInsideDocument b,
              getElementById orphanInsideDocument (buttonId q) ≠ some a) →
            sidebarClasses orphanInsideDocument after q =
              sidebarClasses orphanInsideDocument before q) ∧
          ((∀ a ∈ ancestors orphanInsideDocument b, ∀ q : Side,
              getElementById orphanInsideDocument (buttonId q) = some a →
              getElementById orphanInsideDocument (sidebarId q) = none) → after = before) :=
  ⟨Or.inl (by decide), missing_pair_click orphanInsideDocument .right (Or.inl (by decide))⟩

/-- C4: for a pair whose two elements both exist, two consecutive clicks on the button
bring the class state of the sidebar back: every class name, open included, is on
the sidebar after the second click exactly when it was on it before the first. -/
theorem two_clicks_restore (doc : List Node) (s : Side) (sb b : Nat) (h : List Nat)
    (hs : getElementById doc (sidebarId s) = some sb)
    (hb : getElementById doc (buttonId s) = some b) :
    ∃ before after cs cs2, session doc h = .ok before ∧
      session doc (h ++ [b, b]) = .ok after ∧
      sidebarClasses doc before s = some cs ∧ sidebarClasses doc after s = some cs2 ∧
      ∀ c, c ∈ cs2 ↔ c ∈ cs := by
  obtain ⟨before, n, mid, hbefore, _, hn, hmid, _, hnode, _⟩ := wired_step h hs hb
  obtain ⟨mid1, m, after, hmid1, _, hm, hafter, _, hnode2, _⟩ := wired_step (h ++ [b]) hs hb
  rw [hmid] at hmid1
  cases hmid1
  rw [hnode] at hm
  cases hm
  rw [List.append_assoc] at hafter
  exact ⟨before, after, n.classList, toggleOpen (toggleOpen n.classList), hbefore, hafter,
    sidebarClasses_eq hs hn, sidebarClasses_eq hs hnode2,
    fun c => mem_toggleOpen_twice c n.classList⟩

theorem two_clicks_restore_witness :
    getElementById fullDocument (sidebarId .right) = some 2 ∧
    getElementById fullDocument (buttonId .right) = some 3 ∧
    ∃ before after cs cs2, session fullDocument [1] = .ok before ∧
      session fullDocument ([1] ++ [3, 3]) = .ok after ∧
      sidebarClasses fullDocument before .right = some cs ∧
      sidebarClasses fullDocument after .right = some cs2 ∧
      ∀ c, c ∈ cs2 ↔ c ∈ cs :=
  ⟨by decide, by decide, two_clicks_restore fullDocument .right 2 3 [1] (by decide) (by decide)⟩

/-- C5, as stated, fails: with the left button inside the right button, a click on the
left button bubbles to the right button and toggles open on the right sidebar. -/
theorem nested_click_changes_other_sidebar :
    ¬ (∀ (doc : List Node) (p q : Side) (b : Nat) (h : List Nat), p ≠ q →
        getElementById doc (buttonId p) = some b →
        ∃ before after, session doc h = .ok before ∧ session doc (h ++ [b]) = .ok after ∧
          sidebarClasses doc after q = sidebarClasses doc before q) := by
  intro hall
  obtain ⟨before, after, hbefore, hafter, hsame⟩ :=
    hall nestedButtonsDocument .left .right 3 [] (by decide) (by decide)
  have hrun0 : session nestedButtonsDocument [] =
      .ok ⟨nestedButtonsDocument, wiring nestedButtonsDocument⟩ := by rfl
  have hrun1 : session nestedButtonsDocument ([] ++ [3]) =
      .ok ⟨[⟨"left-sidebar", ["open"], none⟩, ⟨"right-sidebar", ["open"], none⟩,
        ⟨"right-sidebar-button", [], none⟩, ⟨"left-sidebar-button", [], some 2⟩],
        wiring nestedButtonsDocument⟩ := by rfl
  rw [hrun0] at hbefore
  rw [hrun1] at hafter
  cases hbefore
  cases hafter
  exact absurd hsame (by decide)

/-- C5, amended: for two distinct pairs, a click on the button of the first leaves the
class list of the sidebar of the second unchanged, wired or not, provided the button
of the first does not lie inside the button of the second; and over any further
clicks none of which targets the button of the second pair or an element inside it,
the class list of its sidebar stays what it was. -/
theorem other_sidebar_unchanged (doc : List Node) (p q : Side) (b : Nat) (h : List Nat)
    (hpq : p ≠ q) (hb : getElementById doc (buttonId p) = some b)
    (hout : ∀ a ∈ ancestors doc b, getElementById doc (buttonId q) ≠ some a) :
    (∃ before after, session doc h = .ok before ∧ session doc (h ++ [b]) = .ok after ∧
      sidebarClasses doc after q = sidebarClasses doc before q) ∧
    ∀ h2 : List Nat,
      (∀ r ∈ h2, ∀ a ∈ eventPath doc r, getElementById doc (buttonId q) ≠ some a) →
      ∃ before after, session doc h = .ok before ∧ session doc (h ++ h2) = .ok after ∧
        sidebarClasses doc after q = sidebarClasses doc before q := by
  obtain ⟨before, hbefore, hinv⟩ := session_inv doc h
  constructor
  · obtain ⟨after, hclick, _, _, hown, _⟩ := click_spec hinv b
    refine ⟨before, after, hbefore, by rw [session_snoc hbefore, hclick], ?_⟩
    apply sidebarClasses_congr
    intro sq hsq
    apply hown q sq hsq
    intro a ha
    unfold eventPath at ha
    rcases List.mem_cons.1 ha with ha | ha
    · subst ha
      exact fun hq => hpq (buttonId_inj (getElementById_inj hb hq))
    · exact hout a ha
  · intro h2 hr
    obtain ⟨after, hafter, hcl⟩ := clicks_not_own h2 hr hinv
    exact ⟨before, after, hbefore, by rw [session_append hbefore, hafter], hcl⟩

theorem other_sidebar_unchanged_witness :
    Side.left ≠ Side.right ∧ getElementById wrappedDocument (buttonId .left) = some 1 ∧
    (∀ a ∈ ancestors wrappedDocument 1,
      getElementById wrappedDocument (buttonId .right) ≠ some a) ∧
    ((∃ before after, session wrappedDocument [4] = .ok before ∧
      session wrappedDocument ([4] ++ [1]) = .ok after ∧
      sidebarClasses wrappedDocument after .right =
        sidebarClasses wrappedDocument before .right) ∧
    ∀ h2 : List Nat,
      (∀ r ∈ h2, ∀ a ∈ eventPath wrappedDocument r,
        getElementById wrappedDocument (buttonId .right) ≠ some a) →
      ∃ before after, session wrappedDocument [4] = .ok before ∧
        session wrappedDocument ([4] ++ h2) = .ok after ∧
        sidebarClasses wrappedDocument after .right =
          sidebarClasses wrappedDocument before .right) :=
  ⟨by decide, by decide, by decide,
    other_sidebar_unchanged wrappedDocument .left .right 1 [4] (by decide) (by decide)
      (by decide)⟩

/-- C6: the comment above the button lookups says a click sets the class open on the
sidebar, but with the left sidebar open when the script runs, one click on the left
button leaves the left sidebar without the class open. -/
theorem click_on_open_sidebar_removes_open :
    getElementById openLeftDocument (sidebarId .left) = some 0 ∧
    getElementById openLeftDocument (buttonId .left) = some 1 ∧
    sidebarClasses openLeftDocument ⟨openLeftDocument, wiring openLeftDocument⟩ .left =
      some ["open"] ∧
    ∃ after, session openLeftDocument [1] = .ok after ∧
      sidebarClasses openLeftDocument after .left = some [] := by
  refine ⟨by decide, by decide, by decide, ⟨[⟨"left-sidebar", [], none⟩,
    ⟨"left-sidebar-button", [], none⟩], wiring openLeftDocument⟩, by rfl, by decide⟩

/-- C7: for a wired pair and every n, after n clicks on its button and no other event,
the membership of open on the sidebar equals the membership before those clicks when
n is even and its negation when n is odd. -/
theorem n_clicks_parity (doc : List Node) (s : Side) (sb b : Nat) (h : List Nat) (n : Nat)
    (hs : getElementById doc (sidebarId s) = some sb)
    (hb : getElementById doc (buttonId s) = some b) :
    ∃ before after cs csn, session doc h = .ok before ∧
      session doc (h ++ List.replicate n b) = .ok after ∧
      sidebarClasses doc before s = some cs ∧ sidebarClasses doc after s = some csn ∧
      (n % 2 = 0 → ("open" ∈ csn ↔ "open" ∈ cs)) ∧
      (n % 2 = 1 → ("open" ∈ csn ↔ "open" ∉ cs)) := by
  obtain ⟨before, hbefore, hinv⟩ := session_inv doc h
  obtain ⟨n0, hn0, _⟩ := inv_node hinv hs
  obtain ⟨after, m, hafter, hm, heven, hodd⟩ := replicate_step h hs hb hbefore hn0 n
  exact ⟨before, after, n0.classList, m.classList, hbefore, hafter, sidebarClasses_eq hs hn0,
    sidebarClasses_eq hs hm, heven, hodd⟩

theorem n_clicks_parity_witness :
    getElementById fullDocument (sidebarId .bottom) = some 4 ∧
    getElementById fullDocument (buttonId .bottom) = some 5 ∧
    ∃ before after cs csn, session fullDocument [] = .ok before ∧
      session fullDocument ([] ++ List.replicate 3 5) = .ok after ∧
      sidebarClasses fullDocument before .bottom = some cs ∧
      sidebarClasses fullDocument after .bottom = some csn ∧
      (3 % 2 = 0 → ("open" ∈ csn ↔ "open" ∈ cs)) ∧
      (3 % 2 = 1 → ("open" ∈ csn ↔ "open" ∉ cs)) :=
  ⟨by decide, by decide, n_clicks_parity fullDocument .bottom 4 5 [] 3 (by decide) (by decide)⟩

/-- C8: a click on the button of a wired pair changes only the membership of open on
the sidebar of that pair: every other class name is on the sidebar afterwards
exactly when it was before; the page keeps the same number of elements with the same
ids; every element that is not a sidebar is unchanged; and the class list of every
button is unchanged. -/
theorem click_changes_open_only (doc : List Node) (s : Side) (sb b : Nat) (h : List Nat)
    (hs : getElementById doc (sidebarId s) = some sb)
    (hb : getElementById doc (buttonId s) = some b) :
    ∃ before after cs cs1, session doc h = .ok before ∧ session doc (h ++ [b]) = .ok after ∧
      sidebarClasses doc before s = some cs ∧ sidebarClasses doc after s = some cs1 ∧
      (∀ c, c ≠ "open" → (c ∈ cs1 ↔ c ∈ cs)) ∧
      after.nodes.length = before.nodes.length ∧
      after.nodes.map Node.id = before.nodes.map Node.id ∧
      (∀ i : Nat, (∀ q : Side, getElementById doc (sidebarId q) ≠ some i) →
        after.nodes[i]? = before.nodes[i]?) ∧
      (∀ q : Side, classListAt after (getElementById doc (buttonId q)) =
        classListAt before (getElementById doc (buttonId q))) := by
  obtain ⟨before, n, after, hbefore, hinv, hn, hafter, hinv1, hnode, hfr⟩ :=
    wired_step h hs hb
  refine ⟨before, after, n.classList, toggleOpen n.classList, hbefore, hafter,
    sidebarClasses_eq hs hn, sidebarClasses_eq hs hnode,
    fun c hc => mem_toggleOpen_other hc _, hfr.1, inv_ids hinv hinv1,
    fun i hi => frame_getElem?_eq hfr hi, ?_⟩
  intro q
  unfold classListAt
  cases hq : getElementById doc (buttonId q) with
  | none => rfl
  | some bq =>
    have hnot : ∀ r : Side, getElementById doc (sidebarId r) ≠ some bq :=
      fun r hr => sidebarId_ne_buttonId r q (getElementById_inj hr hq)
    simp only [frame_getElem?_eq hfr hnot]

theorem click_changes_open_only_witness :
    getElementById fullDocument (sidebarId .right) = some 2 ∧
    getElementById fullDocument (buttonId .right) = some 3 ∧
    ∃ before after cs cs1, session fullDocument [] = .ok before ∧
      session fullDocument ([] ++ [3]) = .ok after ∧
      sidebarClasses fullDocument before .right = some cs ∧
      sidebarClasses fullDocument after .right = some cs1 ∧
      (∀ c, c ≠ "open" → (c ∈ cs1 ↔ c ∈ cs)) ∧
      after.nodes.length = before.nodes.length ∧
      after.nodes.map Node.id = before.nodes.map Node.id ∧
      (∀ i : Nat, (∀ q : Side, getElementById fullDocument (sidebarId q) ≠ some i) →
        after.nodes[i]? = before.nodes[i]?) ∧
      (∀ q : Side, classListAt after (getElementById fullDocument (buttonId q)) =
        classListAt before (getElementById fullDocument (buttonId q))) :=
  ⟨by decide, by decide,
    click_changes_open_only fullDocument .right 2 3 [] (by decide) (by decide)⟩

/-- C9: the script by itself ends normally with every element, so every class list,
exactly as in the document; it leaves at most one listener of any type on any
element; and a first click on the button of a wired pair ends with the class list of
the sidebar of that pair toggled once: open removed if it was there, appended if it
was not. -/
theorem script_only_registers (doc : List Node) :
    ∃ page, script doc = .ok page ∧ page.nodes = doc ∧
      (∀ (r : Nat) (t : String), listenerCount page r t ≤ 1) ∧
      ∀ (s : Side) (sb b : Nat), getElementById doc (sidebarId s) = some sb →
        getElementById doc (buttonId s) = some b →
        ∃ after cs, sidebarClasses doc page s = some cs ∧ click b page = .ok after ∧
          sidebarClasses doc after s =
            some (if "open" ∈ cs then cs.filter (fun t => t ≠ "open") else cs ++ ["open"]) := by
  refine ⟨⟨doc, wiring doc⟩, script_eq doc, rfl, fun r t => listenerCount_wiring_le doc r t, ?_⟩
  intro s sb b hs hb
  obtain ⟨n, hn, _⟩ := inv_node (inv_script doc) hs
  obtain ⟨after, hclick, _, hnode, _⟩ := click_wired (inv_script doc) hs hb hn
  exact ⟨after, n.classList, sidebarClasses_eq hs hn, hclick, sidebarClasses_eq hs hnode⟩

theorem script_only_registers_witness :
    ∃ page, script fullDocument = .ok page ∧ page.nodes = fullDocument ∧
      (∀ (r : Nat) (t : String), listenerCount page r t ≤ 1) ∧
      ∃ after cs, sidebarClasses fullDocument page .right = some cs ∧
        click 3 page = .ok after ∧
        sidebarClasses fullDocument after .right =
          some (if "open" ∈ cs then cs.filter (fun t => t ≠ "open") else cs ++ ["open"]) := by
  obtain ⟨page, hpage, hnodes, hcount, hclick⟩ := script_only_registers fullDocument
  exact ⟨page, hpage, hnodes, hcount, hclick .right 2 3 (by decide) (by decide)⟩

end Sidebars
